import Mathlib

/-!
Shallow embedding of the batch insert planner and configuration handling of
`src/thumbnail.py` (gallery-utils), together with proofs of the specified
properties. Paths are represented by their base filenames (the code only
ever uses `.name` on them); Python exceptions are modelled with `Except`
carrying the exception class name.
-/

namespace GalleryUtils

/-- `DEFAULT_WIDTH` constant of src/thumbnail.py. -/
def DEFAULT_WIDTH : Int := 1000

/-- `DEFAULT_QUALITY` constant of src/thumbnail.py. -/
def DEFAULT_QUALITY : Int := 75

/-- `DEFAULT_EFFORT` constant of src/thumbnail.py. -/
def DEFAULT_EFFORT : Int := 4

/-- `BATCH_PARAM_LIMIT` constant of src/thumbnail.py (D1 parameter limit). -/
def BATCH_PARAM_LIMIT : Nat := 100

/-- Embeds `width = DEFAULT_WIDTH if not args.width else max(64, int(args.width))`
(src/thumbnail.py line 61). `none` is an absent `-w` flag. Python truthiness:
`not args.width` is true both when the flag is absent (None) and when it is 0. -/
def effectiveWidth : Option Int → Int
  | none => DEFAULT_WIDTH
  | some v => if v = 0 then DEFAULT_WIDTH else max 64 v

/-- Embeds `quality = DEFAULT_QUALITY if not args.quality else max(0, min(100, int(args.quality)))`
(src/thumbnail.py line 62), with Python truthiness on the supplied value. -/
def effectiveQuality : Option Int → Int
  | none => DEFAULT_QUALITY
  | some v => if v = 0 then DEFAULT_QUALITY else max 0 (min 100 v)

/-- Embeds `effort = DEFAULT_EFFORT if not args.effort else max(0, min(9, int(args.effort)))`
(src/thumbnail.py line 63), with Python truthiness on the supplied value. -/
def effectiveEffort : Option Int → Int
  | none => DEFAULT_EFFORT
  | some v => if v = 0 then DEFAULT_EFFORT else max 0 (min 9 v)

/-- Embeds Python `name.rsplit(".")` (src/thumbnail.py lines 78 and 84); with no
maxsplit argument, rsplit splits at every dot, exactly like `split(".")`.
The result is always a nonempty list of the dot-separated segments. -/
def splitDot : List Char → List (List Char)
  | [] => [[]]
  | c :: rest =>
    if c = '.' then [] :: splitDot rest
    else
      match splitDot rest with
      | [] => [[c]]
      | g :: gs => (c :: g) :: gs

/-- Embeds the thumbnail filename computation of src/thumbnail.py lines 78/84:
`".".join((name.rsplit(".")[0] + "-thumb", "avif"))`. Index `[0]` of the
(always nonempty) rsplit result is taken with `headD`. -/
def thumbName (name : List Char) : List Char :=
  List.intercalate ['.'] [(splitDot name).headD [] ++ "-thumb".data, "avif".data]

/-- Embeds `get_multi_insert_query` (src/thumbnail.py lines 163-173). The
`lru_cache` decorator only memoizes this pure function and is semantically
transparent. -/
def get_multi_insert_query (tableName : String) (columns : List String) (rowCount : Nat) : String :=
  let insertStr := "INSERT INTO " ++ tableName ++ " (" ++ String.intercalate ", " columns ++ ") VALUES "
  let paramStr := String.intercalate ", " (List.replicate columns.length "?")
  let paramGroup := "(" ++ paramStr ++ ")"
  let paramRows := String.intercalate ",\n" (List.replicate rowCount paramGroup)
  insertStr ++ paramRows ++ " ON CONFLICT DO NOTHING;"

/-- One entry of the statement plan: the dictionary
`{"sql": query, "params": photoData}` of src/thumbnail.py line 187. -/
structure Statement where
  sql : String
  params : List String
  deriving DecidableEq, Repr

/-- Embeds the loop body of `batch_metadata` (src/thumbnail.py lines 181-188),
generalized over table name, column list and `maxRows`. The arguments are the
running index `i`, the accumulated flat parameter list `photoData`, and the
remaining rows; `n` is `len(pathData)`. Python raises ZeroDivisionError when
`(i+1) % maxRows` is evaluated with `maxRows = 0`, which is modelled with
`Except.error`. -/
def batchAux (tableName : String) (columns : List String) (maxRows n : Nat) :
    Nat → List String → List (List String) → Except String (List Statement)
  | _, _, [] => Except.ok []
  | i, photoData, row :: rest =>
    if maxRows = 0 then Except.error "ZeroDivisionError"
    else if (i + 1) % maxRows = 0 ∨ i = n - 1 then
      Except.map
        (fun qs =>
          { sql := get_multi_insert_query tableName columns
              (if (i + 1) % maxRows = 0 then maxRows else (i + 1) % maxRows),
            params := photoData ++ row } :: qs)
        (batchAux tableName columns maxRows n (i + 1) [] rest)
    else
      batchAux tableName columns maxRows n (i + 1) (photoData ++ row) rest

/-- The column tuple of `batch_metadata` (src/thumbnail.py line 177). -/
def photoColumns : List String :=
  ["filename", "thumbnail", "camera_model", "lens", "date_taken",
   "exposure_time", "focal_length", "f_stop", "iso"]

/-- The flat values appended per path pair (src/thumbnail.py line 183):
`[src.name, thumb.name, "OLYMPUS XA2", "NULL", ..., "NULL"]`. Pairs carry the
base filenames of the source image and of its thumbnail. -/
def rowValues (paths : String × String) : List String :=
  [paths.1, paths.2, "OLYMPUS XA2", "NULL", "NULL", "NULL", "NULL", "NULL", "NULL"]

/-- `batch_metadata` (src/thumbnail.py lines 175-189) generalized over the
table name, column list and batch limit; `maxRows = batchLimit // len(columns)`
is line 178. The concrete function fixes the first three arguments. -/
def batch_metadata_gen (tableName : String) (columns : List String) (batchLimit : Nat)
    (rows : List (List String)) : Except String (List Statement) :=
  let maxRows := batchLimit / columns.length
  batchAux tableName columns maxRows rows.length 0 [] rows

/-- `batch_metadata` (src/thumbnail.py lines 175-189): the plan sent to
`batch_d1`, built from the path data with table "photo", the nine photo
columns and the batch parameter limit 100. -/
def batch_metadata (pathData : List (String × String)) : Except String (List Statement) :=
  batch_metadata_gen "photo" photoColumns BATCH_PARAM_LIMIT (pathData.map rowValues)

/-- Modelled from the spec (section 4.1): the statement template shape
`INSERT INTO <table> (<col1>, <col2>, ...) VALUES ` followed by `rowCount`
parenthesized groups of `len(columnSet)` placeholders joined by `", "`, groups
joined by a comma plus newline, ending with ` ON CONFLICT DO NOTHING;`. -/
def buildInsertTemplate (tableName : String) (columnSet : List String) (rowCount : Nat) : String :=
  "INSERT INTO " ++ tableName ++ " (" ++ String.intercalate ", " columnSet ++ ") VALUES "
    ++ String.intercalate ",\n"
        (List.replicate rowCount
          ("(" ++ String.intercalate ", " (List.replicate columnSet.length "?") ++ ")"))
    ++ " ON CONFLICT DO NOTHING;"

/-- Spec-side partition of a row list into groups of `k` rows, the last group
holding the remainder (spec section 4.2, used to state the plan shape). -/
def groupsOf : Nat → List α → List (List α)
  | _, [] => []
  | 0, _ :: _ => []
  | k + 1, x :: xs => (x :: xs.take k) :: groupsOf (k + 1) (xs.drop k)
termination_by _ l => l.length
decreasing_by simp [List.length_drop]; omega

/-- The plan entry a group of rows produces: the multi-insert statement for
the group row count paired with the flattened row values. -/
def stmtOfGroup (tableName : String) (columns : List String) (g : List (List String)) : Statement :=
  { sql := get_multi_insert_query tableName columns g.length, params := g.flatten }

theorem add_mod_of_mod_eq_zero {b k : Nat} (hb : b % k = 0) (x : Nat) :
    (b + x) % k = x % k := by
  rw [Nat.add_mod, hb, Nat.zero_add, Nat.mod_mod_of_dvd]
  exact dvd_refl k

theorem groupsOf_nil (k : Nat) : groupsOf k ([] : List α) = [] := by
  cases k <;> simp [groupsOf]

theorem groupsOf_cons (k : Nat) (x : α) (xs : List α) :
    groupsOf (k + 1) (x :: xs) = (x :: xs.take k) :: groupsOf (k + 1) (xs.drop k) := by
  rw [groupsOf]

theorem flatten_groupsOf (k : Nat) (l : List α) : (groupsOf (k + 1) l).flatten = l := by
  have key : ∀ (n : Nat) (l : List α), l.length = n → (groupsOf (k + 1) l).flatten = l := by
    intro n
    induction n using Nat.strong_induction_on with
    | _ n ih =>
      intro l hl
      cases l with
      | nil => simp [groupsOf_nil]
      | cons x xs =>
        rw [groupsOf_cons]
        have hlen : (xs.drop k).length < n := by
          simp only [List.length_cons] at hl
          simp only [List.length_drop]
          omega
        simp only [List.flatten_cons]
        rw [ih _ hlen _ rfl]
        simp [List.take_append_drop]
  exact key l.length l rfl

theorem length_groupsOf (k : Nat) (l : List α) :
    (groupsOf (k + 1) l).length = (l.length + k) / (k + 1) := by
  have key : ∀ (n : Nat) (l : List α), l.length = n →
      (groupsOf (k + 1) l).length = (l.length + k) / (k + 1) := by
    intro n
    induction n using Nat.strong_induction_on with
    | _ n ih =>
      intro l hl
      cases l with
      | nil => simp [groupsOf_nil, Nat.div_eq_of_lt]
      | cons x xs =>
        rw [groupsOf_cons]
        have hlen : (xs.drop k).length < n := by
          simp only [List.length_cons] at hl
          simp only [List.length_drop]
          omega
        simp only [List.length_cons]
        rw [ih _ hlen _ rfl]
        simp only [List.length_drop]
        rcases le_or_lt k xs.length with hk | hk
        · rw [Nat.sub_add_cancel hk]
          have h2 : xs.length + 1 + k = xs.length + (k + 1) := by omega
          rw [h2, Nat.add_div_right _ (Nat.succ_pos k)]
        · have h1 : xs.length - k = 0 := by omega
          have h2 : (0 + k) / (k + 1) = 0 := Nat.div_eq_of_lt (by omega)
          have h3 : xs.length + 1 + k = xs.length + (k + 1) := by omega
          have h4 : xs.length / (k + 1) = 0 := Nat.div_eq_of_lt (by omega)
          rw [h1, h2, h3, Nat.add_div_right _ (Nat.succ_pos k), h4]
  exact key l.length l rfl

theorem length_le_of_mem_groupsOf (k : Nat) (l : List α) :
    ∀ g ∈ groupsOf (k + 1) l, 0 < g.length ∧ g.length ≤ k + 1 := by
  have key : ∀ (n : Nat) (l : List α), l.length = n →
      ∀ g ∈ groupsOf (k + 1) l, 0 < g.length ∧ g.length ≤ k + 1 := by
    intro n
    induction n using Nat.strong_induction_on with
    | _ n ih =>
      intro l hl
      cases l with
      | nil => simp [groupsOf_nil]
      | cons x xs =>
        rw [groupsOf_cons]
        intro g hg
        rcases List.mem_cons.mp hg with hg | hg
        · subst hg
          simp only [List.length_cons, List.length_take]
          omega
        · have hlen : (xs.drop k).length < n := by
            simp only [List.length_cons] at hl
            simp only [List.length_drop]
            omega
          exact ih _ hlen _ rfl g hg
  exact key l.length l rfl

theorem mem_of_mem_groupsOf (k : Nat) (l : List α) (g : List α)
    (hg : g ∈ groupsOf (k + 1) l) (a : α) (ha : a ∈ g) : a ∈ l := by
  rw [← flatten_groupsOf k l]
  exact List.mem_flatten.mpr ⟨g, hg, ha⟩

theorem groupsOf_eq_nil_iff (k : Nat) (l : List α) : groupsOf (k + 1) l = [] ↔ l = [] := by
  cases l with
  | nil => simp [groupsOf_nil]
  | cons x xs => rw [groupsOf_cons]; simp

theorem length_of_mem_dropLast_groupsOf (k : Nat) (l : List α) :
    ∀ g ∈ (groupsOf (k + 1) l).dropLast, g.length = k + 1 := by
  have key : ∀ (n : Nat) (l : List α), l.length = n →
      ∀ g ∈ (groupsOf (k + 1) l).dropLast, g.length = k + 1 := by
    intro n
    induction n using Nat.strong_induction_on with
    | _ n ih =>
      intro l hl
      cases l with
      | nil => simp [groupsOf_nil]
      | cons x xs =>
        rw [groupsOf_cons]
        cases htail : groupsOf (k + 1) (xs.drop k) with
        | nil => simp
        | cons y ys =>
          have hxs : k < xs.length := by
            by_contra hc
            have hdrop : xs.drop k = [] := List.drop_eq_nil_of_le (by omega)
            rw [hdrop, groupsOf_nil] at htail
            exact List.noConfusion htail
          intro g hg
          rw [List.dropLast_cons_of_ne_nil (by exact List.cons_ne_nil y ys)] at hg
          rcases List.mem_cons.mp hg with hg | hg
          · subst hg
            simp only [List.length_cons, List.length_take]
            omega
          · have hlen : (xs.drop k).length < n := by
              simp only [List.length_cons] at hl
              simp only [List.length_drop]
              omega
            have hmem := ih _ hlen _ rfl g
            rw [htail] at hmem
            exact hmem hg
  exact key l.length l rfl

theorem getLast?_groupsOf (k : Nat) (l : List α) (hne : l ≠ []) :
    ∃ g, (groupsOf (k + 1) l).getLast? = some g ∧
      g.length = if l.length % (k + 1) = 0 then k + 1 else l.length % (k + 1) := by
  have key : ∀ (n : Nat) (l : List α), l.length = n → l ≠ [] →
      ∃ g, (groupsOf (k + 1) l).getLast? = some g ∧
        g.length = if l.length % (k + 1) = 0 then k + 1 else l.length % (k + 1) := by
    intro n
    induction n using Nat.strong_induction_on with
    | _ n ih =>
      intro l hl
      cases l with
      | nil => intro hne2; exact absurd rfl hne2
      | cons x xs =>
        intro _
        rw [groupsOf_cons]
        cases htail : groupsOf (k + 1) (xs.drop k) with
        | nil =>
          have hxs : xs.length ≤ k := by
            by_contra hc
            have hd2 : xs.drop k ≠ [] := by
              intro hd
              have hlen0 := congrArg List.length hd
              simp only [List.length_drop, List.length_nil] at hlen0
              omega
            exact hd2 ((groupsOf_eq_nil_iff k _).mp htail)
          refine ⟨x :: xs.take k, rfl, ?_⟩
          rw [List.take_of_length_le hxs]
          simp only [List.length_cons]
          rcases Nat.lt_or_ge xs.length k with hlt | hge
          · rw [Nat.mod_eq_of_lt (show xs.length + 1 < k + 1 by omega), if_neg (by omega)]
          · have hxk : xs.length = k := by omega
            rw [hxk, if_pos (by simp [Nat.mod_self])]
        | cons y ys =>
          have hlen : (xs.drop k).length < n := by
            simp only [List.length_cons] at hl
            simp only [List.length_drop]
            omega
          have hne2 : xs.drop k ≠ [] := by
            intro hd
            rw [hd, groupsOf_nil] at htail
            exact List.noConfusion htail
          obtain ⟨g, hg1, hg2⟩ := ih _ hlen _ rfl hne2
          rw [htail] at hg1
          refine ⟨g, ?_, ?_⟩
          · rw [List.getLast?_cons_cons]
            exact hg1
          · rw [hg2]
            have hxs : k < xs.length := by
              by_contra hc
              exact hne2 (List.drop_eq_nil_of_le (by omega))
            have hmod : (xs.drop k).length % (k + 1) = (x :: xs).length % (k + 1) := by
              simp only [List.length_drop, List.length_cons]
              have heq : xs.length + 1 = (xs.length - k) + (k + 1) := by omega
              rw [heq, Nat.add_mod_right]
            rw [hmod]
  exact key l.length l rfl hne

theorem batchAux_final_group (t : String) (cols : List String) (k : Nat) :
    ∀ (g : List (List String)), g ≠ [] → ∀ (d b i n : Nat) (acc : List String),
      b % k = 0 → i = b + d → n = i + g.length → d + g.length < k →
      batchAux t cols k n i acc g =
        Except.ok [{ sql := get_multi_insert_query t cols (d + g.length),
                     params := acc ++ g.flatten }] := by
  intro g
  induction g with
  | nil => intro h; exact absurd rfl h
  | cons x tail ih =>
    intro _ d b i n acc hb hi hn hlt
    simp only [List.length_cons] at hn hlt
    have hk0 : ¬ k = 0 := by omega
    have hmod : (i + 1) % k = d + 1 := by
      rw [hi, Nat.add_assoc, add_mod_of_mod_eq_zero hb, Nat.mod_eq_of_lt (by omega)]
    cases tail with
    | nil =>
      rw [batchAux, if_neg hk0, hmod, if_pos (Or.inr (show i = n - 1 by
        simp only [List.length_nil] at hn; omega))]
      rw [if_neg (show ¬ d + 1 = 0 by omega)]
      rw [batchAux]
      simp only [Except.map, List.flatten_cons, List.flatten_nil, List.append_nil,
        List.length_nil]
      rfl
    | cons y tail2 =>
      rw [batchAux, if_neg hk0, hmod,
        if_neg (show ¬ (d + 1 = 0 ∨ i = n - 1) by
          simp only [List.length_cons] at hn; omega)]
      have h1 : d + (y :: tail2).length + 1 = d + 1 + (y :: tail2).length := by
        simp only [List.length_cons]; omega
      have h2 : acc ++ (x :: y :: tail2).flatten = (acc ++ x) ++ (y :: tail2).flatten := by
        simp [List.flatten_cons, List.append_assoc]
      simp only [List.length_cons] at h1 ⊢
      rw [show d + (tail2.length + 1 + 1) = d + 1 + (tail2.length + 1) by omega, h2]
      exact ih (by simp) (d + 1) b (i + 1) n (acc ++ x) hb (by omega)
        (by simp only [List.length_cons] at hn ⊢; omega)
        (by simp only [List.length_cons] at hlt ⊢; omega)

theorem batchAux_full_group (t : String) (cols : List String) (k : Nat) :
    ∀ (g : List (List String)), g ≠ [] →
      ∀ (d b i n : Nat) (acc : List String) (rest : List (List String)),
      b % k = 0 → i = b + d → d + g.length = k → n = b + k + rest.length →
      batchAux t cols k n i acc (g ++ rest) =
        Except.map
          (fun qs => { sql := get_multi_insert_query t cols k, params := acc ++ g.flatten } :: qs)
          (batchAux t cols k n (b + k) [] rest) := by
  intro g
  induction g with
  | nil => intro h; exact absurd rfl h
  | cons x tail ih =>
    intro _ d b i n acc rest hb hi hd hn
    simp only [List.length_cons] at hd
    have hk0 : ¬ k = 0 := by omega
    cases tail with
    | nil =>
      simp only [List.length_nil] at hd
      have hmod : (i + 1) % k = 0 := by
        rw [hi, show b + d + 1 = b + k by omega, add_mod_of_mod_eq_zero hb, Nat.mod_self]
      rw [List.cons_append, batchAux, if_neg hk0, hmod, if_pos (Or.inl rfl), if_pos rfl]
      rw [List.nil_append, show i + 1 = b + k by omega]
      simp [List.flatten_cons]
    | cons y tail2 =>
      have hmod : (i + 1) % k = d + 1 := by
        rw [hi, Nat.add_assoc, add_mod_of_mod_eq_zero hb, Nat.mod_eq_of_lt (by
          simp only [List.length_cons] at hd; omega)]
      rw [List.cons_append, batchAux, if_neg hk0, hmod,
        if_neg (show ¬ (d + 1 = 0 ∨ i = n - 1) by
          intro hc
          rcases hc with hc | hc
          · omega
          · simp only [List.length_cons] at hd
            omega)]
      have h2 : acc ++ (x :: y :: tail2).flatten = (acc ++ x) ++ (y :: tail2).flatten := by
        simp [List.flatten_cons, List.append_assoc]
      rw [h2]
      exact ih (by simp) (d + 1) b (i + 1) n (acc ++ x) rest hb (by omega)
        (by simp only [List.length_cons] at hd ⊢; omega) hn

theorem batchAux_groupsOf (t : String) (cols : List String) (k : Nat) (hk : 0 < k) :
    ∀ (rows : List (List String)) (b n : Nat), b % k = 0 → n = b + rows.length →
      batchAux t cols k n b [] rows =
        Except.ok ((groupsOf k rows).map (stmtOfGroup t cols)) := by
  have key : ∀ (N : Nat) (rows : List (List String)), rows.length = N → ∀ (b n : Nat),
      b % k = 0 → n = b + rows.length →
      batchAux t cols k n b [] rows =
        Except.ok ((groupsOf k rows).map (stmtOfGroup t cols)) := by
    intro N
    induction N using Nat.strong_induction_on with
    | _ N ih =>
      intro rows hN b n hb hn
      obtain ⟨k1, hk1⟩ : ∃ k1, k = k1 + 1 := ⟨k - 1, by omega⟩
      cases rows with
      | nil =>
        rw [batchAux, groupsOf_nil]
        rfl
      | cons r rest =>
        by_cases hsmall : (r :: rest).length < k
        · rw [batchAux_final_group t cols k (r :: rest) (by simp) 0 b b n []
            hb (by omega) (by omega) (by omega)]
          have hgr : groupsOf k (r :: rest) = [r :: rest] := by
            rw [hk1, groupsOf_cons]
            have htake : rest.take k1 = rest := List.take_of_length_le (by
              simp only [List.length_cons] at hsmall; omega)
            have hdrop : rest.drop k1 = [] := List.drop_eq_nil_of_le (by
              simp only [List.length_cons] at hsmall; omega)
            rw [htake, hdrop, groupsOf_nil]
          rw [hgr]
          simp only [List.map_cons, List.map_nil, stmtOfGroup, List.nil_append,
            Nat.zero_add]
        · push_neg at hsmall
          have hlen9 : ((r :: rest).take k).length = k :=
            List.length_take_of_le hsmall
          have hsplit : (r :: rest).take k ++ (r :: rest).drop k = r :: rest :=
            List.take_append_drop k (r :: rest)
          rw [← hsplit]
          rw [batchAux_full_group t cols k ((r :: rest).take k)
            (by intro hc; rw [hc] at hlen9; simp at hlen9; omega)
            0 b b n [] ((r :: rest).drop k) hb (by omega) (by rw [hlen9]; omega)
            (by rw [← hsplit] at hn; simp only [List.length_append] at hn
                rw [hlen9] at hn; omega)]
          have hdlen : ((r :: rest).drop k).length < N := by
            simp only [List.length_drop, List.length_cons] at *
            omega
          rw [ih _ hdlen _ rfl (b + k) n (by rw [add_mod_of_mod_eq_zero hb, Nat.mod_self])
            (by rw [← hsplit] at hn; simp only [List.length_append] at hn
                rw [hlen9] at hn; omega)]
          have hgr : groupsOf k ((r :: rest).take k ++ (r :: rest).drop k) =
              (r :: rest).take k :: groupsOf k ((r :: rest).drop k) := by
            rw [hsplit, hk1, groupsOf_cons, List.take_succ_cons, List.drop_succ_cons]
          rw [hgr]
          simp only [List.map_cons, Except.map, stmtOfGroup, List.nil_append, hlen9]
  intro rows b n hb hn
  exact key rows.length rows rfl b n hb hn

theorem batch_metadata_gen_eq_groups (t : String) (cols : List String) (limit : Nat)
    (rows : List (List String)) (hk : 0 < limit / cols.length) :
    batch_metadata_gen t cols limit rows =
      Except.ok ((groupsOf (limit / cols.length) rows).map (stmtOfGroup t cols)) := by
  unfold batch_metadata_gen
  exact batchAux_groupsOf t cols (limit / cols.length) hk rows 0 rows.length
    (Nat.zero_mod _) (by omega)

theorem flatten_length_const (c : Nat) :
    ∀ (g : List (List String)), (∀ r ∈ g, r.length = c) → g.flatten.length = c * g.length
  | [], _ => by simp
  | r :: g, h => by
    simp only [List.flatten_cons, List.length_append, List.length_cons]
    rw [flatten_length_const c g (fun s hs => h s (List.mem_cons_of_mem _ hs)),
      h r (List.mem_cons_self r g)]
    ring

theorem flatten_map_flatten (gs : List (List (List String))) :
    (gs.map List.flatten).flatten = gs.flatten.flatten := by
  induction gs with
  | nil => rfl
  | cons g gs ih => simp [List.flatten_append, ih]

theorem dropLast_map (f : α → β) : ∀ (l : List α), (l.map f).dropLast = l.dropLast.map f
  | [] => rfl
  | [_] => rfl
  | x :: y :: l => by
    simp only [List.map_cons, List.dropLast_cons₂]
    rw [← List.map_cons f y l, dropLast_map f (y :: l)]

theorem splitDot_ne_nil : ∀ (l : List Char), splitDot l ≠ []
  | [] => by simp [splitDot]
  | c :: rest => by
    simp only [splitDot]
    by_cases h : c = '.'
    · simp [h]
    · simp only [h, if_false]
      cases hs : splitDot rest <;> simp

theorem headD_splitDot : ∀ (l : List Char),
    (splitDot l).headD [] = l.takeWhile (fun c => c != '.')
  | [] => rfl
  | c :: rest => by
    by_cases h : c = '.'
    · subst h
      simp [splitDot, List.takeWhile_cons]
    · have ih := headD_splitDot rest
      have hne := splitDot_ne_nil rest
      cases hs : splitDot rest with
      | nil => exact absurd hs hne
      | cons g gs =>
        rw [hs] at ih
        simp only [List.headD_cons] at ih
        simp [splitDot, hs, List.takeWhile_cons, h, ih]

theorem flatten_groupsOf_pos (k : Nat) (hk : 0 < k) (l : List α) :
    (groupsOf k l).flatten = l := by
  obtain ⟨k1, rfl⟩ : ∃ k1, k = k1 + 1 := ⟨k - 1, by omega⟩
  exact flatten_groupsOf k1 l

theorem length_groupsOf_pos (k : Nat) (hk : 0 < k) (l : List α) :
    (groupsOf k l).length = (l.length + k - 1) / k := by
  obtain ⟨k1, rfl⟩ : ∃ k1, k = k1 + 1 := ⟨k - 1, by omega⟩
  have h : l.length + (k1 + 1) - 1 = l.length + k1 := by omega
  rw [length_groupsOf k1 l, h]

theorem length_le_of_mem_groupsOf_pos (k : Nat) (hk : 0 < k) (l : List α) :
    ∀ g ∈ groupsOf k l, 0 < g.length ∧ g.length ≤ k := by
  obtain ⟨k1, rfl⟩ : ∃ k1, k = k1 + 1 := ⟨k - 1, by omega⟩
  exact length_le_of_mem_groupsOf k1 l

theorem mem_of_mem_groupsOf_pos (k : Nat) (hk : 0 < k) (l : List α) (g : List α)
    (hg : g ∈ groupsOf k l) (a : α) (ha : a ∈ g) : a ∈ l := by
  obtain ⟨k1, rfl⟩ : ∃ k1, k = k1 + 1 := ⟨k - 1, by omega⟩
  exact mem_of_mem_groupsOf k1 l g hg a ha

theorem length_of_mem_dropLast_groupsOf_pos (k : Nat) (hk : 0 < k) (l : List α) :
    ∀ g ∈ (groupsOf k l).dropLast, g.length = k := by
  obtain ⟨k1, rfl⟩ : ∃ k1, k = k1 + 1 := ⟨k - 1, by omega⟩
  exact length_of_mem_dropLast_groupsOf k1 l

theorem getLast?_groupsOf_pos (k : Nat) (hk : 0 < k) (l : List α) (hne : l ≠ []) :
    ∃ g, (groupsOf k l).getLast? = some g ∧
      g.length = if l.length % k = 0 then k else l.length % k := by
  obtain ⟨k1, rfl⟩ : ∃ k1, k = k1 + 1 := ⟨k - 1, by omega⟩
  exact getLast?_groupsOf k1 l hne

theorem intercalate_go_data (s : String) :
    ∀ (l : List String) (acc : String),
      (String.intercalate.go acc s l).data =
        acc.data ++ (l.map (fun a => s.data ++ a.data)).flatten
  | [], acc => by simp [String.intercalate.go]
  | a :: as, acc => by
    rw [show String.intercalate.go acc s (a :: as) =
        String.intercalate.go (acc ++ s ++ a) s as from by simp [String.intercalate.go]]
    rw [intercalate_go_data s as (acc ++ s ++ a)]
    simp [String.data_append, List.append_assoc]

theorem intercalate_data (s a : String) (as : List String) :
    (String.intercalate s (a :: as)).data =
      a.data ++ (as.map (fun b => s.data ++ b.data)).flatten := by
  rw [String.intercalate, intercalate_go_data]

theorem count_intercalate_replicate (c : Char) (s g : String) (hs : s.data.count c = 0) :
    ∀ (n : Nat), (String.intercalate s (List.replicate n g)).data.count c = n * g.data.count c
  | 0 => by simp [String.intercalate]
  | n + 1 => by
    rw [List.replicate_succ, intercalate_data, List.count_append, List.map_replicate,
      List.count_flatten, List.map_replicate]
    have hone : (s.data ++ g.data).count c = g.data.count c := by
      rw [List.count_append, hs, Nat.zero_add]
    rw [hone]
    simp only [List.sum_replicate, smul_eq_mul]
    ring

theorem count_intercalate_eq_zero (c : Char) (s : String) (l : List String)
    (hs : s.data.count c = 0) (hl : ∀ a ∈ l, a.data.count c = 0) :
    (String.intercalate s l).data.count c = 0 := by
  cases l with
  | nil => simp [String.intercalate]
  | cons a as =>
    rw [intercalate_data, List.count_append, hl a (List.mem_cons_self a as),
      List.count_flatten]
    have hsum : ((as.map (fun b => s.data ++ b.data)).map (List.count c)).sum = 0 := by
      apply List.sum_eq_zero
      intro x hx
      rw [List.mem_map] at hx
      obtain ⟨y, hy, rfl⟩ := hx
      rw [List.mem_map] at hy
      obtain ⟨b, hb, rfl⟩ := hy
      rw [List.count_append, hs, hl b (List.mem_cons_of_mem a hb)]
      omega
    rw [hsum]

theorem count_query (t : String) (cols : List String) (n : Nat)
    (ht : t.data.count ('?') = 0) (hcols : ∀ c ∈ cols, c.data.count ('?') = 0) :
    (get_multi_insert_query t cols n).data.count ('?') = n * cols.length := by
  unfold get_multi_insert_query
  simp only [String.data_append, List.count_append]
  rw [count_intercalate_eq_zero ('?') ", " cols (by decide) hcols]
  rw [count_intercalate_replicate ('?') ",\n"
    ("(" ++ String.intercalate ", " (List.replicate cols.length "?") ++ ")") (by decide) n]
  have hgroup : ("(" ++ String.intercalate ", " (List.replicate cols.length "?")
      ++ ")").data.count ('?') = cols.length := by
    simp only [String.data_append, List.count_append]
    rw [count_intercalate_replicate ('?') ", " "?" (by decide) cols.length]
    rw [show ("?" : String).data.count ('?') = 1 from by decide,
      show ("(" : String).data.count ('?') = 0 from by decide,
      show (")" : String).data.count ('?') = 0 from by decide]
    omega
  rw [hgroup, ht]
  rw [show ("INSERT INTO " : String).data.count ('?') = 0 from by decide,
    show (" (" : String).data.count ('?') = 0 from by decide,
    show (") VALUES " : String).data.count ('?') = 0 from by decide,
    show (" ON CONFLICT DO NOTHING;" : String).data.count ('?') = 0 from by decide]
  omega

theorem thumbName_eq_takeWhile (name : List Char) :
    thumbName name = name.takeWhile (fun c => c != '.') ++ "-thumb.avif".data := by
  unfold thumbName
  rw [headD_splitDot]
  rw [show List.intercalate ['.']
        [name.takeWhile (fun c => c != '.') ++ "-thumb".data, "avif".data] =
      (name.takeWhile (fun c => c != '.') ++ "-thumb".data) ++ ('.' :: "avif".data) from by
    simp [List.intercalate, List.intersperse]]
  rw [List.append_assoc]
  exact congrArg (fun z => name.takeWhile (fun c => c != '.') ++ z) (by decide)

/-- C1: Coverage and order. For every non-empty sequence of path pairs,
`batch_metadata` succeeds with a plan whose parameter lists are exactly the
flattened contiguous groups of the row values, in the order of the source
rows; consequently the concatenation of all parameter lists equals the
concatenation of all row values (filename, thumbnail, then the seven
metadata fields, per row, in row order), so every row appears in exactly
one statement at the position implied by its index. -/
theorem batch_metadata_coverage_and_order (pathData : List (String × String))
    (_hne : pathData ≠ []) :
    ∃ plan, batch_metadata pathData = Except.ok plan ∧
      plan.map Statement.params =
        (groupsOf (BATCH_PARAM_LIMIT / photoColumns.length)
          (pathData.map rowValues)).map List.flatten ∧
      (plan.map Statement.params).flatten = (pathData.map rowValues).flatten := by
  have hk : 0 < BATCH_PARAM_LIMIT / photoColumns.length := by decide
  refine ⟨_, batch_metadata_gen_eq_groups "photo" photoColumns BATCH_PARAM_LIMIT
    (pathData.map rowValues) hk, ?_, ?_⟩
  · rw [List.map_map]
    rfl
  · rw [List.map_map, show (Statement.params ∘ stmtOfGroup "photo" photoColumns) =
      (List.flatten : List (List String) → List String) from rfl]
    rw [flatten_map_flatten, flatten_groupsOf_pos _ hk]

/-- C1 witness: the coverage property at the one-element input. -/
theorem batch_metadata_coverage_and_order_witness :
    ∃ plan, batch_metadata [("a.jpg", "a-thumb.avif")] = Except.ok plan ∧
      plan.map Statement.params =
        (groupsOf (BATCH_PARAM_LIMIT / photoColumns.length)
          ([("a.jpg", "a-thumb.avif")].map rowValues)).map List.flatten ∧
      (plan.map Statement.params).flatten =
        ([("a.jpg", "a-thumb.avif")].map rowValues).flatten :=
  batch_metadata_coverage_and_order [("a.jpg", "a-thumb.avif")] (by decide)

/-- C2: Statement count. For every row sequence and every column set and
batch limit with capacity at least 1, the generalized partitioner of
`batch_metadata` succeeds and produces exactly
`ceil(rowCount / capacity) = (rowCount + capacity - 1) / capacity`
statements; in particular an exact multiple of the capacity closes exactly
one statement at the boundary, with no trailing short or empty statement. -/
theorem batch_statement_count (t : String) (cols : List String) (limit : Nat)
    (rows : List (List String)) (hk : 0 < limit / cols.length) :
    ∃ plan, batch_metadata_gen t cols limit rows = Except.ok plan ∧
      plan.length =
        (rows.length + limit / cols.length - 1) / (limit / cols.length) := by
  refine ⟨_, batch_metadata_gen_eq_groups t cols limit rows hk, ?_⟩
  rw [List.length_map, length_groupsOf_pos _ hk]

/-- C2 witness: 9 columns, batch limit 100 (capacity 11), 11 rows — an exact
multiple of the capacity — produce exactly one statement. -/
theorem batch_statement_count_witness :
    ∃ plan, batch_metadata_gen "photo" photoColumns 100
        (List.replicate 11 (List.replicate 9 "v")) = Except.ok plan ∧
      plan.length = 1 := by
  obtain ⟨plan, h1, h2⟩ := batch_statement_count "photo" photoColumns 100
    (List.replicate 11 (List.replicate 9 "v")) (by decide)
  exact ⟨plan, h1, by rw [h2]; decide⟩

/-- C3: Plan invariant. For every valid input (capacity at least 1, rows of
the declared width), every plan entry was built from some row count r with
its SQL string generated for exactly r rows, its parameter list of length
columnCount * r, that length a multiple of columnCount and at most the batch
limit, and r at most the capacity. -/
theorem batch_plan_invariant (t : String) (cols : List String) (limit : Nat)
    (rows : List (List String)) (hk : 0 < limit / cols.length)
    (hrows : ∀ r ∈ rows, r.length = cols.length) :
    ∃ plan, batch_metadata_gen t cols limit rows = Except.ok plan ∧
      ∀ e ∈ plan, ∃ r, e.sql = get_multi_insert_query t cols r ∧
        e.params.length = cols.length * r ∧
        e.params.length % cols.length = 0 ∧
        r ≤ limit / cols.length ∧
        e.params.length ≤ limit := by
  refine ⟨_, batch_metadata_gen_eq_groups t cols limit rows hk, ?_⟩
  intro e he
  rw [List.mem_map] at he
  obtain ⟨g, hg, rfl⟩ := he
  have hr : g.length ≤ limit / cols.length :=
    (length_le_of_mem_groupsOf_pos _ hk rows g hg).2
  have hlen : g.flatten.length = cols.length * g.length :=
    flatten_length_const cols.length g
      (fun r hrmem => hrows r (mem_of_mem_groupsOf_pos _ hk rows g hg r hrmem))
  refine ⟨g.length, rfl, ?_, ?_, hr, ?_⟩
  · exact hlen
  · rw [show (stmtOfGroup t cols g).params = g.flatten from rfl, hlen]
    exact Nat.mul_mod_right _ _
  · rw [show (stmtOfGroup t cols g).params = g.flatten from rfl, hlen]
    calc cols.length * g.length
        ≤ cols.length * (limit / cols.length) := Nat.mul_le_mul_left _ hr
      _ ≤ limit := by rw [Nat.mul_comm]; exact Nat.div_mul_le_self limit cols.length

/-- C3 witness: the invariant at 3 concrete rows of 9 values under the
photo column set and batch limit 100. -/
theorem batch_plan_invariant_witness :
    ∃ plan, batch_metadata_gen "photo" photoColumns 100
        (List.replicate 3 (List.replicate 9 "v")) = Except.ok plan ∧
      ∀ e ∈ plan, ∃ r, e.sql = get_multi_insert_query "photo" photoColumns r ∧
        e.params.length = 9 * r ∧
        e.params.length % 9 = 0 ∧
        r ≤ 11 ∧
        e.params.length ≤ 100 := by
  obtain ⟨plan, h1, h2⟩ := batch_plan_invariant "photo" photoColumns 100
    (List.replicate 3 (List.replicate 9 "v")) (by decide) (by decide)
  refine ⟨plan, h1, ?_⟩
  intro e he
  obtain ⟨r, hs, hl, hm, hr, hb⟩ := h2 e he
  have hc : photoColumns.length = 9 := rfl
  rw [hc] at hl hm
  have hcap : (100 : Nat) / photoColumns.length = 11 := rfl
  rw [hcap] at hr
  exact ⟨r, hs, hl, hm, hr, hb⟩

/-- C4: Template shape. For a non-empty table name, a non-empty column set
and a row count of at least 1, `get_multi_insert_query` returns exactly the
statement described by the spec (the `buildInsertTemplate` shape: header,
`rowCount` placeholder groups joined by a comma plus newline, and the
`ON CONFLICT DO NOTHING;` terminator); the string contains exactly
`rowCount * columnCount` placeholders and ends with the terminator. -/
theorem template_shape (t : String) (cols : List String) (n : Nat)
    (_ht : t ≠ "") (_hcols : cols ≠ []) (_hn : 1 ≤ n)
    (htq : t.data.count ('?') = 0) (hcq : ∀ c ∈ cols, c.data.count ('?') = 0) :
    get_multi_insert_query t cols n = buildInsertTemplate t cols n ∧
      (get_multi_insert_query t cols n).data.count ('?') = n * cols.length ∧
      ∃ p, (get_multi_insert_query t cols n).data =
        p ++ (" ON CONFLICT DO NOTHING;" : String).data := by
  refine ⟨rfl, count_query t cols n htq hcq, ?_⟩
  exact ⟨(("INSERT INTO " ++ t ++ " (" ++ String.intercalate ", " cols ++ ") VALUES ")
    ++ String.intercalate ",\n" (List.replicate n
      ("(" ++ String.intercalate ", " (List.replicate cols.length "?") ++ ")"))).data, rfl⟩

/-- C4 witness: the template shape at table photo, the nine photo columns
and two rows, with the placeholder count evaluated to 18. -/
theorem template_shape_witness :
    get_multi_insert_query "photo" photoColumns 2 =
      buildInsertTemplate "photo" photoColumns 2 ∧
    (get_multi_insert_query "photo" photoColumns 2).data.count ('?') = 18 := by
  obtain ⟨h1, h2, h3⟩ := template_shape "photo" photoColumns 2
    (by decide) (by decide) (by decide) (by decide) (by decide)
  exact ⟨h1, by rw [h2]; decide⟩

/-- C5: Statement sizes. For every valid non-empty input, every statement
except the last holds exactly `capacity` rows (parameter list of length
columnCount * capacity), and the last statement holds the remainder
`rowCount mod capacity` rows when that is nonzero and a full `capacity`
rows otherwise. -/
theorem batch_statement_sizes (t : String) (cols : List String) (limit : Nat)
    (rows : List (List String)) (hk : 0 < limit / cols.length)
    (hrows : ∀ r ∈ rows, r.length = cols.length) (hne : rows ≠ []) :
    ∃ plan, batch_metadata_gen t cols limit rows = Except.ok plan ∧
      (∀ e ∈ plan.dropLast,
        e.params.length = cols.length * (limit / cols.length)) ∧
      (∀ e, plan.getLast? = some e → e.params.length =
        cols.length * (if rows.length % (limit / cols.length) = 0
          then limit / cols.length
          else rows.length % (limit / cols.length))) := by
  refine ⟨_, batch_metadata_gen_eq_groups t cols limit rows hk, ?_, ?_⟩
  · intro e he
    rw [dropLast_map, List.mem_map] at he
    obtain ⟨g, hg, rfl⟩ := he
    have hglen : g.length = limit / cols.length :=
      length_of_mem_dropLast_groupsOf_pos _ hk rows g hg
    have hgmem : g ∈ groupsOf (limit / cols.length) rows :=
      List.dropLast_subset _ hg
    have hlen : g.flatten.length = cols.length * g.length :=
      flatten_length_const cols.length g
        (fun r hrmem => hrows r (mem_of_mem_groupsOf_pos _ hk rows g hgmem r hrmem))
    rw [show (stmtOfGroup t cols g).params = g.flatten from rfl, hlen, hglen]
  · intro e he
    rw [List.getLast?_map] at he
    obtain ⟨g, hg1, hg2⟩ := getLast?_groupsOf_pos _ hk rows hne
    rw [hg1] at he
    have hee : stmtOfGroup t cols g = e := Option.some.inj he
    have hgmem : g ∈ groupsOf (limit / cols.length) rows :=
      List.mem_of_getLast?_eq_some hg1
    have hlen : g.flatten.length = cols.length * g.length :=
      flatten_length_const cols.length g
        (fun r hrmem => hrows r (mem_of_mem_groupsOf_pos _ hk rows g hgmem r hrmem))
    rw [← hee, show (stmtOfGroup t cols g).params = g.flatten from rfl, hlen, hg2]

/-- C5 witness: 9 columns, batch limit 100, 25 rows — statements of sizes
11, 11 and 3 rows, hence parameter lists of 99, 99 and 27 values. -/
theorem batch_statement_sizes_witness :
    ∃ plan, batch_metadata_gen "photo" photoColumns 100
        (List.replicate 25 (List.replicate 9 "v")) = Except.ok plan ∧
      (∀ e ∈ plan.dropLast, e.params.length = 99) ∧
      (∀ e, plan.getLast? = some e → e.params.length = 27) := by
  obtain ⟨plan, h1, h2, h3⟩ := batch_statement_sizes "photo" photoColumns 100
    (List.replicate 25 (List.replicate 9 "v")) (by decide) (by decide) (by decide)
  refine ⟨plan, h1, fun e he => ?_, fun e he => ?_⟩
  · rw [h2 e he]; decide
  · rw [h3 e he]; decide

/-- C6 counterexample: with 101 columns under batch limit 100 (capacity 0)
and a non-empty input, `batch_metadata` raises ZeroDivisionError at the
first modulus operation, not a ConfigurationError (no such check exists in
the code). -/
theorem zero_capacity_counterexample :
    batch_metadata_gen "photo" (List.replicate 101 "c") 100 [List.replicate 101 "v"] =
      Except.error "ZeroDivisionError" ∧
    ("ZeroDivisionError" : String) ≠ "ConfigurationError" := by
  exact ⟨rfl, by decide⟩

/-- C6 amended: whenever the computed capacity `batchLimit // len(columns)`
is zero and the input is non-empty, the partitioner fails with
ZeroDivisionError (the modulus by zero in the flush condition), not with a
ConfigurationError; there is no fail-fast capacity check. -/
theorem zero_capacity_zero_division (t : String) (cols : List String) (limit : Nat)
    (rows : List (List String)) (hcap : limit / cols.length = 0) (hne : rows ≠ []) :
    batch_metadata_gen t cols limit rows = Except.error "ZeroDivisionError" := by
  cases rows with
  | nil => exact absurd rfl hne
  | cons r rest =>
    unfold batch_metadata_gen
    rw [hcap, batchAux, if_pos rfl]

/-- C6 amended witness: the ZeroDivisionError at the concrete
101-column, one-row input. -/
theorem zero_capacity_zero_division_witness :
    batch_metadata_gen "photo" (List.replicate 101 "c") 100 [List.replicate 101 "v"] =
      Except.error "ZeroDivisionError" :=
  zero_capacity_zero_division "photo" (List.replicate 101 "c") 100
    [List.replicate 101 "v"] (by decide) (by decide)

/-- C7 counterexample: `get_multi_insert_query` performs no input
validation; at rowCount 0 and at an empty column set it returns degenerate
SQL strings instead of failing with InvalidArgument. -/
theorem template_no_validation_counterexample :
    get_multi_insert_query "photo" photoColumns 0 =
      "INSERT INTO photo (filename, thumbnail, camera_model, lens, date_taken, exposure_time, focal_length, f_stop, iso) VALUES  ON CONFLICT DO NOTHING;" ∧
    get_multi_insert_query "photo" [] 1 =
      "INSERT INTO photo () VALUES () ON CONFLICT DO NOTHING;" := by
  exact ⟨by decide, by decide⟩

/-- C7 amended: the template builder is total and performs no validation:
for rowCount 0 it returns the header followed directly by the terminator
(zero placeholder groups), and for an empty column set it returns empty
column and placeholder lists; it never raises. -/
theorem template_no_validation (t : String) (cols : List String) :
    get_multi_insert_query t cols 0 =
      "INSERT INTO " ++ t ++ " (" ++ String.intercalate ", " cols ++ ") VALUES "
        ++ " ON CONFLICT DO NOTHING;" ∧
    ∀ n, get_multi_insert_query t [] n =
      "INSERT INTO " ++ t ++ " () VALUES "
        ++ String.intercalate ",\n" (List.replicate n "()")
        ++ " ON CONFLICT DO NOTHING;" := by
  constructor
  · show ("INSERT INTO " ++ t ++ " (" ++ String.intercalate ", " cols ++ ") VALUES "
        ++ "") ++ " ON CONFLICT DO NOTHING;" = _
    rw [String.append_empty]
  · intro n
    show ("INSERT INTO " ++ t ++ " (" ++ "" ++ ") VALUES "
        ++ String.intercalate ",\n" (List.replicate n "()"))
        ++ " ON CONFLICT DO NOTHING;" = _
    rw [String.append_empty]
    rw [String.append_assoc ("INSERT INTO " ++ t) " (" ") VALUES "]
    rw [show (" (" : String) ++ ") VALUES " = " () VALUES " from rfl]

/-- C8: Empty input. The empty path sequence yields the empty plan with no
error, for the concrete `batch_metadata` and for the generalized
partitioner at every table name, column set and batch limit. -/
theorem batch_metadata_empty_input :
    batch_metadata [] = Except.ok [] ∧
    ∀ (t : String) (cols : List String) (limit : Nat),
      batch_metadata_gen t cols limit [] = Except.ok [] :=
  ⟨rfl, fun _ _ _ => rfl⟩

/-- C9: the code at src/thumbnail.py lines 61-63 uses Python truthiness
(`not args.width` etc.), so an explicitly supplied 0 falls back to the
default instead of being clamped: width 0 gives 1000 (claim says
max(64,0) = 64), quality 0 gives 75 (claim says 0), effort 0 gives 4
(claim says 0, and the flag help text itself calls 0 the fastest setting). -/
theorem config_zero_falls_back_to_defaults :
    effectiveWidth (some 0) = 1000 ∧
    effectiveQuality (some 0) = 75 ∧
    effectiveEffort (some 0) = 4 ∧
    effectiveWidth (some 0) ≠ max 64 0 ∧
    effectiveQuality (some 0) ≠ max 0 (min 100 0) ∧
    effectiveEffort (some 0) ≠ max 0 (min 9 0) := by
  decide

/-- C10: Thumbnail name derivation. For every source filename the computed
thumbnail name is the portion before the first dot with `-thumb.avif`
appended; concretely `a.b.jpg` maps to `a-thumb.avif`, and the two distinct
sources `a.jpg` and `a.png` collide on the same thumbnail name. -/
theorem thumb_name_first_dot :
    (∀ name : List Char,
      thumbName name = name.takeWhile (fun c => c != '.') ++ "-thumb.avif".data) ∧
    thumbName "a.b.jpg".data = "a-thumb.avif".data ∧
    ("a.jpg" : String) ≠ "a.png" ∧
    thumbName "a.jpg".data = thumbName "a.png".data :=
  ⟨fun name => thumbName_eq_takeWhile name, by decide, by decide, by decide⟩

end GalleryUtils
